import Mathlib

/-!
# FWC: folder watch-and-copy registry (`src/FWC.js`)

A shallow embedding of the `FWC` class: the mapping registry (`add`), the bulk
operators (`copy`, `clean`), the watch controller (`watch`, `stop`) and the
event handlers.

The class sits on three libraries that are not part of the repository:

* Node's `path` module (POSIX flavour): `join`, `normalize`, `resolve`,
  `relative`, `dirname`.  They are modelled here on path segments (the text
  between slashes), which is how `normalizeString` treats its input.
* `fs-extra`: `ensureDirSync` acts on an explicit `FileSystem` value; the
  asynchronous operations (`ensureDir`, `copy`, `remove`, `emptyDir`) settle as an
  `FsOutcomes` table says, so that every success/failure pattern can be
  quantified over.
* `chokidar`: a watcher is a numbered handle.

A promise is modelled by the way it settles: `Except.ok` for fulfilled,
`Except.error` for rejected.  A synchronous call that throws is `Except.error`
as well.  Console output and file-system requests are recorded in a trace of
`Effect`s.
-/

namespace FwcNode

/-! ## JavaScript values -/

/-- The JavaScript values an argument or an option can hold.  A function value
is kept as the predicate over paths it computes (the only functions the class
handles are copy filters). -/
inductive JSVal where
  | undefined
  | null
  | bool (b : Bool)
  | num (n : Int)
  | str (s : String)
  | fn (f : String → Bool)
  | object

/-- An object literal: its properties in the order written.  When a key is
written twice the later one wins, as in JavaScript. -/
abbrev JSObj := List (String × JSVal)

/-- A thrown or rejected value: `new Error(message)` or a system error raised by
the file-system layer. -/
inductive JSError where
  | error (message : String)
  | system (code : String) (path : String)
deriving DecidableEq, Repr

/-- Read of property `k` of an object literal. -/
def JSObj.get (o : JSObj) (k : String) : Option JSVal :=
  match o with
  | [] => none
  | (k1, v) :: rest =>
    match JSObj.get rest k with
    | some w => some w
    | none => if k1 = k then some v else none

/-- Does the object have own property `k`? -/
def JSObj.has (o : JSObj) (k : String) : Bool :=
  o.any (fun kv => kv.1 == k)

/-- Assignment `o[k] = v`: an existing property keeps its place, a new one goes
to the end. -/
def JSObj.set (o : JSObj) (k : String) (v : JSVal) : JSObj :=
  if JSObj.has o k then o.map (fun kv => if kv.1 = k then (kv.1, v) else kv)
  else o ++ [(k, v)]

/-- Object spread with two sources: every own property of `a`, then every own
property of `b`, is assigned in turn to a fresh object. -/
def spread (a b : JSObj) : JSObj :=
  b.foldl (fun t kv => JSObj.set t kv.1 kv.2) (a.foldl (fun t kv => JSObj.set t kv.1 kv.2) [])

/-- A default parameter value: used when the argument is `undefined`. -/
def defaultParam (v dflt : JSVal) : JSVal :=
  match v with
  | .undefined => dflt
  | w => w

/-- The characters `String.prototype.trim` removes (WhiteSpace and
LineTerminator of ECMAScript). -/
def isJSWhiteSpace (c : Char) : Bool :=
  let n := c.toNat
  n = 0x09 || n = 0x0A || n = 0x0B || n = 0x0C || n = 0x0D || n = 0x20 || n = 0xA0
    || n = 0x1680 || (0x2000 ≤ n && n ≤ 0x200A) || n = 0x2028 || n = 0x2029
    || n = 0x202F || n = 0x205F || n = 0x3000 || n = 0xFEFF

/-- The method `String.prototype.trim`. -/
def trim (s : String) : String :=
  String.mk ((s.data.dropWhile isJSWhiteSpace).reverse.dropWhile isJSWhiteSpace).reverse

/-! ## Node's `path` module, POSIX flavour -/

namespace Path

/-- The pieces of a path between its slashes (empty pieces included). -/
def splitSlash : List Char → List (List Char)
  | [] => [[]]
  | c :: cs =>
    if c = '/' then [] :: splitSlash cs
    else
      match splitSlash cs with
      | [] => [[c]]
      | seg :: rest => (c :: seg) :: rest

/-- Segments written out with a slash between neighbours. -/
def joinSlash : List (List Char) → List Char
  | [] => []
  | [s] => s
  | s :: t :: rest => s ++ '/' :: joinSlash (t :: rest)

/-- The segment `..`. -/
def dotdot : List Char := ['.', '.']

/-- One round of the loop of `normalizeString`, taken at a separator: `res` is
the result so far (as segments) and `seg` the segment just read.  Empty and `.`
segments are dropped; `..` removes the last segment unless there is none or it
is `..` itself, in which case it is kept only when `allowAboveRoot`. -/
def normalizeStep (allowAboveRoot : Bool) (res : List (List Char)) (seg : List Char) :
    List (List Char) :=
  if seg = [] ∨ seg = ['.'] then res
  else if seg = dotdot then
    if res ≠ [] ∧ res.getLast? ≠ some dotdot then res.dropLast
    else if allowAboveRoot then res ++ [dotdot]
    else res
  else res ++ [seg]

/-- The segments `normalizeString` keeps. -/
def normalizeSegs (allowAboveRoot : Bool) (path : List Char) : List (List Char) :=
  (splitSlash path).foldl (normalizeStep allowAboveRoot) []

/-- The function `normalizeString(path, allowAboveRoot, '/', isPosixPathSeparator)`. -/
def normalizeString (path : List Char) (allowAboveRoot : Bool) : List Char :=
  joinSlash (normalizeSegs allowAboveRoot path)

/-- Is the first character a slash? -/
def isAbsolute (path : String) : Bool :=
  path.data.head? == some '/'

/-- The function `path.posix.normalize`. -/
def normalize (path : String) : String :=
  if path.data = [] then "."
  else
    let isAbs := isAbsolute path
    let trailingSeparator := path.data.getLast? == some '/'
    let p := normalizeString path.data (!isAbs)
    if p = [] then
      if isAbs then "/" else if trailingSeparator then "./" else "."
    else
      String.mk ((if isAbs then ['/'] else []) ++ p ++ (if trailingSeparator then ['/'] else []))

/-- The function `path.posix.join` at two arguments (the only arity `FWC` uses):
the non-empty arguments are put together with a slash and normalized. -/
def join (a b : String) : String :=
  if a.data = [] then
    if b.data = [] then "." else normalize b
  else if b.data = [] then normalize a
  else normalize (String.mk (a.data ++ '/' :: b.data))

/-- The function `path.posix.resolve` at one argument, with the working
directory `cwd` used when the argument is not absolute. -/
def resolve (cwd path : String) : String :=
  let own : List Char := if path.data = [] then [] else path.data ++ ['/']
  let ownAbs := isAbsolute path
  let withCwd : List Char :=
    if ownAbs then own else if cwd.data = [] then own else cwd.data ++ '/' :: own
  let resolvedAbsolute := ownAbs || isAbsolute cwd
  let p := normalizeString withCwd (!resolvedAbsolute)
  if resolvedAbsolute then String.mk ('/' :: p)
  else if p = [] then "." else String.mk p

/-- Two segment lists without their longest common beginning. -/
def stripCommon : List (List Char) → List (List Char) → List (List Char) × List (List Char)
  | a :: as, b :: bs => if a = b then stripCommon as bs else (a :: as, b :: bs)
  | as, bs => (as, bs)

/-- The segments of a resolved path, read after its leading slash. -/
def resolvedSegs (p : String) : List (List Char) :=
  (splitSlash (p.data.drop 1)).filter (fun s => s ≠ [])

/-- The function `path.posix.relative`: both paths are resolved, their common
leading segments are dropped, one `..` is written for each segment left of
`frm`, followed by what is left of `tgt`. -/
def relative (cwd frm tgt : String) : String :=
  if frm = tgt then ""
  else
    let f := resolve cwd frm
    let t := resolve cwd tgt
    if f = t then ""
    else
      let rest := stripCommon (resolvedSegs f) (resolvedSegs t)
      String.mk (joinSlash (List.replicate rest.1.length dotdot ++ rest.2))

/-- The scan of `dirname` from the right over the characters after the first:
`rev` is what is still to be read (reversed), `matchedSlash` tells that only
slashes were read so far.  The result is the number of characters to cut from
the end (the index `end` counted from the right), if a separator was found. -/
def dirnameScan : List Char → Bool → Option Nat
  | [], _ => none
  | c :: rev, matchedSlash =>
    if c = '/' then
      if matchedSlash then (dirnameScan rev true).map (· + 1) else some 1
    else (dirnameScan rev false).map (· + 1)

/-- The function `path.posix.dirname`. -/
def dirname (path : String) : String :=
  match path.data with
  | [] => "."
  | c :: cs =>
    let hasRoot : Bool := c == '/'
    match dirnameScan cs.reverse true with
    | none => if hasRoot then "/" else "."
    | some cut =>
      let stop := 1 + cs.length - cut
      if hasRoot && stop == 1 then "//" else String.mk ((c :: cs).take stop)

end Path

/-! ## The file system under `fs-extra` -/

/-- The part of the file system `add` can observe: the directories and the
regular files that exist, each under its resolved absolute path. -/
structure FileSystem where
  dirs : List String
  files : List String
deriving DecidableEq, Repr

/-- The path itself and every directory above it, root first. -/
def ancestorPaths (segs : List (List Char)) : List String :=
  (List.range (segs.length + 1)).map (fun n => String.mk ('/' :: Path.joinSlash (segs.take n)))

/-- The call `fs.ensureDirSync(dir)`: `dir` is taken against the working
directory, and it and every missing directory above it are created.  The call
throws when a regular file is in the way. -/
def ensureDirSync (cwd : String) (fs : FileSystem) (dir : String) :
    Except JSError FileSystem :=
  let target := Path.resolve cwd dir
  let chain := ancestorPaths (Path.resolvedSegs target)
  if target ∈ fs.files then .error (.system "EEXIST" target)
  else if chain.any (fun p => decide (p ∈ fs.files)) then .error (.system "ENOTDIR" target)
  else .ok { fs with dirs := fs.dirs ++ chain.filter (fun p => decide (p ∉ fs.dirs)) }

/-- Does `path`, taken against the working directory, name an existing
directory? -/
def isDirectory (cwd : String) (fs : FileSystem) (path : String) : Bool :=
  decide (Path.resolve cwd path ∈ fs.dirs)

/-! ## The class `FWC` -/

/-- An element of `foldersPaths`. -/
structure Mapping where
  source : String
  destination : String
  options : JSObj

/-- An element of `watchers`; `watcher` is the handle `chokidar.watch`
returned (`none` stands for a falsy value). -/
structure WatchEntry where
  source : String
  destination : String
  watcher : Option Nat
deriving DecidableEq, Repr

/-- The fields of an `FWC` instance.  `folders` is the property `stop` assigns
to; it is `undefined` (`none`) until then. -/
structure FWC where
  foldersPaths : List Mapping
  watchers : List WatchEntry
  folders : Option (List Mapping)

/-- The instance the constructor builds. -/
def FWC.new : FWC := ⟨[], [], none⟩

/-- What the class asks of its environment, in the order asked. -/
inductive Effect where
  | consoleLog (message : String)
  | consoleError (message : String) (error : JSError)
  | ensureDir (path : String)
  | copy (src dest : String) (options : JSObj)
  | remove (path : String)
  | emptyDir (path : String)
  | watch (source : String) (watcher : Nat)
  | close (watcher : Nat)

/-- Is the effect a request to the file system (and not console output or
watcher management)? -/
def Effect.isFsRequest : Effect → Bool
  | .ensureDir _ => true
  | .copy _ _ _ => true
  | .remove _ => true
  | .emptyDir _ => true
  | _ => false

/-- Is the effect a line on the error console? -/
def Effect.isConsoleError : Effect → Bool
  | .consoleError _ _ => true
  | _ => false

/-- A call that has finished: how it settled (returned or threw, fulfilled or
rejected) and what it asked of the environment. -/
structure Settled (α : Type) where
  outcome : Except JSError α
  trace : List Effect

/-- How the asynchronous file-system operations of one event handler settle:
`none` is fulfilled, `some err` is rejected with `err`. -/
structure FsOutcomes where
  ensureDir : String → Option JSError
  copy : String → String → Option JSError
  remove : String → Option JSError

/-- The message of the error `_validateDir` throws. -/
def invalidDirMessage : String := "Directory paths must be non-empty strings."

/-- The message of the error `add` throws for a source already added. -/
def duplicateMessage (source : String) : String :=
  "Source directory \"" ++ source ++ "\" is already added."

/-- The method `_validateDir`. -/
def _validateDir (dir : JSVal) : Except JSError Unit :=
  match dir with
  | .str s => if trim s = "" then .error (.error invalidDirMessage) else .ok ()
  | _ => .error (.error invalidDirMessage)

/-- The comparison `folder.source === source` of a stored string with an
argument. -/
def strictEqStr (stored : String) (v : JSVal) : Bool :=
  match v with
  | .str s => stored == s
  | _ => false

/-- The method `_isFolderAdded`. -/
def _isFolderAdded (self : FWC) (source : JSVal) : Bool :=
  self.foldersPaths.any (fun folder => strictEqStr folder.source source)

/-- The object `defaultFsOptions` of `add`. -/
def defaultFsOptions : JSObj :=
  [("overwrite", .bool true), ("errorOnExist", .bool false), ("filter", .fn (fun _ => true))]

/-- A call of `add` that has finished: whether it returned or threw, and the
`FWC` instance and the file system it left behind. -/
structure AddResult where
  outcome : Except JSError Unit
  self : FWC
  fs : FileSystem

/-- The method `add(source = '', destination = '', options = {})`, called in
working directory `cwd`; `options = none` is an omitted argument. -/
def add (cwd : String) (self : FWC) (fs : FileSystem) (source destination : JSVal)
    (options : Option JSObj) : AddResult :=
  let source := defaultParam source (.str "")
  let destination := defaultParam destination (.str "")
  let options := options.getD []
  match _validateDir source with
  | .error e => ⟨.error e, self, fs⟩
  | .ok _ =>
  match _validateDir destination with
  | .error e => ⟨.error e, self, fs⟩
  | .ok _ =>
  match source, destination with
  | .str s, .str d =>
    if _isFolderAdded self (.str s) then ⟨.error (.error (duplicateMessage s)), self, fs⟩
    else
      match ensureDirSync cwd fs s with
      | .error e => ⟨.error e, self, fs⟩
      | .ok fs1 =>
        match ensureDirSync cwd fs1 d with
        | .error e => ⟨.error e, self, fs1⟩
        | .ok fs2 =>
          ⟨.ok (),
            { self with
              foldersPaths := self.foldersPaths ++
                [⟨Path.join cwd s, Path.join cwd d, spread defaultFsOptions options⟩] },
            fs2⟩
  | _, _ => ⟨.error (.error invalidDirMessage), self, fs⟩

/-- The arguments of one call of `add`. -/
structure AddCall where
  source : JSVal
  destination : JSVal
  options : Option JSObj

/-- A run of `add` calls one after the other, each in a `try` of its own: a call
that throws leaves the instance to the next call as it is. -/
def runAdds (cwd : String) (self : FWC) (fs : FileSystem) : List AddCall → FWC × FileSystem
  | [] => (self, fs)
  | c :: rest =>
    let r := add cwd self fs c.source c.destination c.options
    runAdds cwd r.self r.fs rest

/-! ## Bulk operators -/

/-- The method `_logError`: one line on the error console. -/
def _logError (message : String) (error : JSError) : List Effect :=
  [.consoleError message error]

/-- The promise `p.catch(handler)` for a handler that returns normally: a
fulfilled `p` stays fulfilled, a rejected `p` runs the handler and is fulfilled
with what it returns. -/
def catchWith (p : Except JSError Unit) (handler : JSError → List Effect) : Settled Unit :=
  match p with
  | .ok _ => ⟨.ok (), []⟩
  | .error err => ⟨.ok (), handler err⟩

/-- The promise `Promise.all(ps)`: rejected as soon as one of `ps` is rejected,
fulfilled when all are. -/
def promiseAll : List (Except JSError Unit) → Except JSError Unit
  | [] => .ok ()
  | .error err :: _ => .error err
  | .ok _ :: rest => promiseAll rest

/-- The promise a file-system operation returns, from its entry in the table
of outcomes. -/
def settle (o : Option JSError) : Except JSError Unit :=
  match o with
  | none => .ok ()
  | some err => .error err

/-- One element of the array `copy` or `clean` hands to `Promise.all`: the
request issued when the callback of `map` ran, and the promise after `.catch`. -/
structure BulkItem where
  request : Effect
  caught : Settled Unit

/-- The callback of `map` in `copy`, run over the mappings from index `i` on;
`outcomes j` is how the copy for the mapping at index `j` settles. -/
def copyEach (outcomes : Nat → Option JSError) : Nat → List Mapping → List BulkItem
  | _, [] => []
  | i, m :: rest =>
    ⟨.copy m.source m.destination m.options,
      catchWith (settle (outcomes i)) (fun err =>
        _logError ("Error copying folder from " ++ m.source ++ " to " ++ m.destination) err)⟩
      :: copyEach outcomes (i + 1) rest

/-- The console lines of the `.catch` handlers of a list of items. -/
def caughtTrace : List BulkItem → List Effect
  | [] => []
  | item :: rest => item.caught.trace ++ caughtTrace rest

/-- A bulk operator that has finished: how its promise settled, what it asked of
the environment, and the instance afterwards. -/
structure BulkResult where
  outcome : Except JSError String
  trace : List Effect
  self : FWC

/-- The body shared by `copy` and `clean`: `await Promise.all(items)` and then
`return message`.  The requests are issued while `map` runs, the console lines
come as the promises settle. -/
def awaitAll (self : FWC) (items : List BulkItem) (message : String) : BulkResult :=
  let trace := items.map (fun item => item.request) ++ caughtTrace items
  match promiseAll (items.map (fun item => item.caught.outcome)) with
  | .error err => ⟨.error err, trace, self⟩
  | .ok _ => ⟨.ok message, trace, self⟩

/-- The method `copy`. -/
def copy (self : FWC) (outcomes : Nat → Option JSError) : BulkResult :=
  awaitAll self (copyEach outcomes 0 self.foldersPaths) "Folders copied successfully"

/-- The body of the `forEach` of `watch`, run over the mappings; `handle` is the
number of the next watcher `chokidar.watch` hands out. -/
def watchEach (handle : Nat) : List Mapping → List WatchEntry × List Effect
  | [] => ([], [])
  | m :: rest =>
    let r := watchEach (handle + 1) rest
    (⟨m.source, m.destination, some handle⟩ :: r.1,
      .watch m.source handle :: .consoleLog ("Started watching directory: " ++ m.source) :: r.2)

/-- The method `watch`. -/
def watch (self : FWC) (handle : Nat) : FWC × List Effect :=
  let r := watchEach handle self.foldersPaths
  ({ self with watchers := self.watchers ++ r.1 }, r.2)

/-- The body of the `forEach` of `stop`, run over the watch entries. -/
def stopEach : List WatchEntry → List Effect
  | [] => []
  | w :: rest =>
    match w.watcher with
    | some handle =>
      .close handle :: .consoleLog ("Stopped watching directory: " ++ w.source) :: stopEach rest
    | none => stopEach rest

/-- The method `stop`: it closes the watchers, then assigns `this.folders = []`
and `this.watchers = []`. -/
def stop (self : FWC) : FWC × List Effect :=
  ({ self with folders := some [], watchers := [] }, stopEach self.watchers)

/-- The watchers a trace closes, in order. -/
def closedWatchers : List Effect → List Nat
  | [] => []
  | .close handle :: rest => handle :: closedWatchers rest
  | _ :: rest => closedWatchers rest

/-- The handles held by a list of watch entries, in order. -/
def activeHandles : List WatchEntry → List Nat
  | [] => []
  | w :: rest =>
    match w.watcher with
    | some handle => handle :: activeHandles rest
    | none => activeHandles rest

/-! ## Event handlers -/

/-- The target of an event: `path.join(targetDir, path.relative(sourceDir, p))`. -/
def targetPath (cwd p sourceDir targetDir : String) : String :=
  Path.join targetDir (Path.relative cwd sourceDir p)

/-- The method `_copyFile`.  The `await fs.ensureDir` stands before the `try`, so
its rejection rejects the method; the rejection of `fs.copy` is caught. -/
def _copyFile (cwd : String) (io : FsOutcomes) (filePath sourceDir targetDir : String) :
    Settled Unit :=
  let relativePath := Path.relative cwd sourceDir filePath
  let targetPath := Path.join targetDir relativePath
  let targetDirPath := Path.dirname targetPath
  match settle (io.ensureDir targetDirPath) with
  | .error err => ⟨.error err, [.ensureDir targetDirPath]⟩
  | .ok _ =>
    match settle (io.copy filePath targetPath) with
    | .ok _ =>
      ⟨.ok (), [.ensureDir targetDirPath, .copy filePath targetPath [("overwrite", .bool true)],
        .consoleLog ("Copied " ++ filePath ++ " to " ++ targetPath)]⟩
    | .error err =>
      ⟨.ok (), [.ensureDir targetDirPath, .copy filePath targetPath [("overwrite", .bool true)]]
        ++ _logError ("Error copying file from " ++ filePath ++ " to " ++ targetPath) err⟩

/-- The method `_handleAdd`. -/
def _handleAdd (cwd : String) (io : FsOutcomes) (filePath sourceDir targetDir : String) :
    Settled Unit :=
  let r := _copyFile cwd io filePath sourceDir targetDir
  ⟨r.outcome, .consoleLog ("File added or changed: " ++ filePath) :: r.trace⟩

/-- The method `_handleAddDir`. -/
def _handleAddDir (cwd : String) (io : FsOutcomes) (dirPath sourceDir targetDir : String) :
    Settled Unit :=
  let relativePath := Path.relative cwd sourceDir dirPath
  let targetPath := Path.join targetDir relativePath
  match settle (io.ensureDir targetPath) with
  | .ok _ =>
    ⟨.ok (), [.consoleLog ("Directory added: " ++ dirPath), .ensureDir targetPath,
      .consoleLog ("Created directory " ++ targetPath)]⟩
  | .error err =>
    ⟨.ok (), [.consoleLog ("Directory added: " ++ dirPath), .ensureDir targetPath]
      ++ _logError ("Error creating directory " ++ targetPath) err⟩

/-- The method `_handleChange`. -/
def _handleChange (cwd : String) (io : FsOutcomes) (filePath sourceDir targetDir : String) :
    Settled Unit :=
  let r := _copyFile cwd io filePath sourceDir targetDir
  ⟨r.outcome, .consoleLog ("File changed: " ++ filePath) :: r.trace⟩

/-- The method `_handleUnlink`. -/
def _handleUnlink (cwd : String) (io : FsOutcomes) (filePath sourceDir targetDir : String) :
    Settled Unit :=
  let relativePath := Path.relative cwd sourceDir filePath
  let targetPath := Path.join targetDir relativePath
  match settle (io.remove targetPath) with
  | .ok _ =>
    ⟨.ok (), [.consoleLog ("File removed: " ++ filePath), .remove targetPath,
      .consoleLog ("Removed " ++ targetPath)]⟩
  | .error err =>
    ⟨.ok (), [.consoleLog ("File removed: " ++ filePath), .remove targetPath]
      ++ _logError ("Error removing file from " ++ targetPath) err⟩

/-- The method `_handleUnlinkDir`. -/
def _handleUnlinkDir (cwd : String) (io : FsOutcomes) (dirPath sourceDir targetDir : String) :
    Settled Unit :=
  let relativePath := Path.relative cwd sourceDir dirPath
  let targetPath := Path.join targetDir relativePath
  match settle (io.remove targetPath) with
  | .ok _ =>
    ⟨.ok (), [.consoleLog ("Directory removed: " ++ dirPath), .remove targetPath,
      .consoleLog ("Removed directory " ++ targetPath)]⟩
  | .error err =>
    ⟨.ok (), [.consoleLog ("Directory removed: " ++ dirPath), .remove targetPath]
      ++ _logError ("Error removing directory " ++ targetPath) err⟩

/-- The five file-system events `watch` listens to. -/
inductive WatchEvent where
  | add
  | change
  | unlink
  | addDir
  | unlinkDir
deriving DecidableEq, Repr

/-- The listeners `watch` registers on the watcher of the mapping
`(source, destination)`: which handler runs for which event. -/
def onEvent (cwd : String) (io : FsOutcomes) (ev : WatchEvent) (p source destination : String) :
    Settled Unit :=
  match ev with
  | .add => _handleAdd cwd io p source destination
  | .change => _handleChange cwd io p source destination
  | .unlink => _handleUnlink cwd io p source destination
  | .addDir => _handleAddDir cwd io p source destination
  | .unlinkDir => _handleUnlinkDir cwd io p source destination

/-- The file-system requests of a trace. -/
def fsRequests (trace : List Effect) : List Effect :=
  trace.filter Effect.isFsRequest

/-- A segment an event path can add below a watched directory: not empty, free
of slashes, and neither `.` nor `..`. -/
def plainSegment (seg : List Char) : Prop :=
  seg ≠ [] ∧ '/' ∉ seg ∧ seg ≠ ['.'] ∧ seg ≠ Path.dotdot

/-- The instance `plainSegment` is decidable. -/
instance (seg : List Char) : Decidable (plainSegment seg) := by
  unfold plainSegment
  exact inferInstance

-- Equality of settled results is decidable.
deriving instance DecidableEq for Except

/-! ## Auxiliary definitions for the statements -/

/-- An argument that is not a string, or is the empty string. -/
def notNonEmptyString (v : JSVal) : Prop :=
  match v with
  | .str s => s = ""
  | _ => True

/-- The characters of an absolute path in normal form: a slash, the segments
with slashes between, and a closing slash when `trailing`. -/
def Path.absForm (X : List (List Char)) (trailing : Bool) : List Char :=
  '/' :: Path.joinSlash X ++ (if trailing then ['/'] else [])

/-- A file system with the root directory only. -/
def emptyFileSystem : FileSystem := ⟨["/"], []⟩

/-- Outcomes in which every `ensureDir` is rejected with `EACCES` and every
other operation is fulfilled. -/
def ensureDirDenied : FsOutcomes :=
  ⟨fun p => some (.system "EACCES" p), fun _ _ => none, fun _ => none⟩

/-- Outcomes in which every operation is fulfilled. -/
def allFulfilled : FsOutcomes :=
  ⟨fun _ => none, fun _ _ => none, fun _ => none⟩

/-! ## Lemmas on `_validateDir`, `add` and object spread -/

theorem trim_empty : trim "" = "" := by decide

theorem validateDir_error (v : JSVal) (e : JSError) (h : _validateDir v = .error e) :
    e = .error invalidDirMessage := by
  unfold _validateDir at h
  split at h
  · split at h
    · injection h with h; exact h.symm
    · cases h
  · injection h with h; exact h.symm

theorem validateDir_ok_str (v : JSVal) (h : _validateDir v = .ok ()) : ∃ s, v = .str s := by
  cases v <;> simp [_validateDir] at h ⊢

theorem validateDir_of_notNonEmptyString (v : JSVal) (h : notNonEmptyString v) :
    _validateDir (defaultParam v (.str "")) = .error (.error invalidDirMessage) := by
  cases v <;> simp_all [notNonEmptyString, defaultParam, _validateDir, trim_empty]

theorem add_source_invalid (cwd : String) (self : FWC) (fs : FileSystem)
    (source destination : JSVal) (options : Option JSObj) (e : JSError)
    (h : _validateDir (defaultParam source (.str "")) = .error e) :
    add cwd self fs source destination options = ⟨.error e, self, fs⟩ := by
  simp only [add, h]

theorem add_destination_invalid (cwd : String) (self : FWC) (fs : FileSystem)
    (source destination : JSVal) (options : Option JSObj) (e : JSError)
    (h : _validateDir (defaultParam destination (.str "")) = .error e) :
    add cwd self fs source destination options = ⟨.error (.error invalidDirMessage), self, fs⟩ := by
  cases hs : _validateDir (defaultParam source (.str "")) with
  | error e1 =>
    rw [add_source_invalid cwd self fs source destination options e1 hs,
      validateDir_error _ e1 hs]
  | ok u =>
    simp only [add, hs, h, validateDir_error _ e h]

theorem add_valid (cwd : String) (self : FWC) (fs : FileSystem) (s d : String)
    (options : Option JSObj)
    (hs : trim s ≠ "") (hd : trim d ≠ "") :
    add cwd self fs (.str s) (.str d) options =
      if _isFolderAdded self (.str s) then ⟨.error (.error (duplicateMessage s)), self, fs⟩
      else
        match ensureDirSync cwd fs s with
        | .error e => ⟨.error e, self, fs⟩
        | .ok fs1 =>
          match ensureDirSync cwd fs1 d with
          | .error e => ⟨.error e, self, fs1⟩
          | .ok fs2 =>
            ⟨.ok (),
              { self with
                foldersPaths := self.foldersPaths ++
                  [⟨Path.join cwd s, Path.join cwd d, spread defaultFsOptions (options.getD [])⟩] },
              fs2⟩ := by
  simp only [add, defaultParam, _validateDir, hs, hd, if_false]

/-- C1: when `source` or `destination` is not a string or is the empty string,
`add` throws the error "Directory paths must be non-empty strings.", the list of
registered mappings (indeed the whole instance) is what it was before the call,
and the file system is untouched: no directory is created. -/
theorem add_rejects_invalid_directory (cwd : String) (self : FWC) (fs : FileSystem) (source destination : JSVal)
    (options : Option JSObj)
    (h : notNonEmptyString source ∨ notNonEmptyString destination) :
    (add cwd self fs source destination options).outcome
        = .error (.error "Directory paths must be non-empty strings.")
      ∧ (add cwd self fs source destination options).self.foldersPaths = self.foldersPaths
      ∧ (add cwd self fs source destination options).self = self
      ∧ (add cwd self fs source destination options).fs = fs := by
  rcases h with h | h
  · rw [add_source_invalid cwd self fs source destination options _
      (validateDir_of_notNonEmptyString source h)]
    exact ⟨rfl, rfl, rfl, rfl⟩
  · rw [add_destination_invalid cwd self fs source destination options _
      (validateDir_of_notNonEmptyString destination h)]
    exact ⟨rfl, rfl, rfl, rfl⟩

/-- Witness for C1: a number passed as `source`. -/
theorem add_rejects_invalid_directory_witness :
    (notNonEmptyString (.num 3) ∨ notNonEmptyString (.str "dist")) ∧
    ((add "/home/u" FWC.new ⟨["/"], []⟩ (.num 3) (.str "dist") none).outcome
        = .error (.error "Directory paths must be non-empty strings.")
      ∧ (add "/home/u" FWC.new ⟨["/"], []⟩ (.num 3) (.str "dist") none).self.foldersPaths
        = FWC.new.foldersPaths
      ∧ (add "/home/u" FWC.new ⟨["/"], []⟩ (.num 3) (.str "dist") none).self = FWC.new
      ∧ (add "/home/u" FWC.new ⟨["/"], []⟩ (.num 3) (.str "dist") none).fs = ⟨["/"], []⟩) :=
  ⟨Or.inl trivial,
    add_rejects_invalid_directory "/home/u" FWC.new ⟨["/"], []⟩ (.num 3) (.str "dist") none (Or.inl trivial)⟩

theorem isFolderAdded_iff (self : FWC) (s : String) :
    _isFolderAdded self (.str s) = true ↔ ∃ m ∈ self.foldersPaths, m.source = s := by
  simp [_isFolderAdded, strictEqStr]

theorem ensureDirSync_error (cwd : String) (fs : FileSystem) (dir : String) (e : JSError)
    (h : ensureDirSync cwd fs dir = .error e) : ∃ code p, e = .system code p := by
  unfold ensureDirSync at h
  simp only at h
  split at h
  · injection h with h; exact ⟨_, _, h.symm⟩
  · split at h
    · injection h with h; exact ⟨_, _, h.symm⟩
    · cases h

/-- C3: for valid arguments (strings that are not blank), `add` throws the
duplicate-source error exactly when the raw `source` string equals the stored
`source` of a mapping already registered. -/
theorem add_duplicate_iff (cwd : String) (self : FWC) (fs : FileSystem) (s d : String)
    (options : Option JSObj)
    (hs : trim s ≠ "") (hd : trim d ≠ "") :
    (add cwd self fs (.str s) (.str d) options).outcome
        = .error (.error ("Source directory \"" ++ s ++ "\" is already added."))
      ↔ ∃ m ∈ self.foldersPaths, m.source = s := by
  rw [add_valid cwd self fs s d options hs hd, ← isFolderAdded_iff]
  by_cases h : _isFolderAdded self (.str s) = true
  · simp [h, duplicateMessage]
  · rw [if_neg h]
    refine iff_of_false ?_ h
    intro hc
    split at hc
    · rename_i e h1
      obtain ⟨c, q, rfl⟩ := ensureDirSync_error cwd fs s e h1
      cases hc
    · split at hc
      · rename_i e h2
        obtain ⟨c, q, rfl⟩ := ensureDirSync_error _ _ _ e h2
        cases hc
      · cases hc

/-- Witness for C3: in working directory `/` the stored source `/srv/a` equals the
raw string `/srv/a`. -/
theorem add_duplicate_iff_witness :
    (trim "/srv/a" ≠ "" ∧ trim "out" ≠ "") ∧
    ((add "/" ⟨[⟨"/srv/a", "/srv/b", []⟩], [], none⟩ ⟨["/"], []⟩ (.str "/srv/a") (.str "out")
          none).outcome
        = .error (.error ("Source directory \"" ++ "/srv/a" ++ "\" is already added."))
      ↔ ∃ m ∈ [(⟨"/srv/a", "/srv/b", []⟩ : Mapping)], m.source = "/srv/a") :=
  ⟨⟨by decide, by decide⟩,
    add_duplicate_iff "/" ⟨[⟨"/srv/a", "/srv/b", []⟩], [], none⟩ ⟨["/"], []⟩ "/srv/a" "out" none
      (by decide) (by decide)⟩

theorem JSObj.get_cons (k1 : String) (v : JSVal) (rest : JSObj) (k : String) :
    JSObj.get ((k1, v) :: rest) k =
      match JSObj.get rest k with
      | some w => some w
      | none => if k1 = k then some v else none := by
  simp [JSObj.get]

theorem JSObj.get_append_single (t : JSObj) (k : String) (v : JSVal) (k2 : String) :
    JSObj.get (t ++ [(k, v)]) k2 = if k = k2 then some v else JSObj.get t k2 := by
  induction t with
  | nil => simp [JSObj.get]
  | cons kv rest ih =>
    obtain ⟨k1, v1⟩ := kv
    simp only [List.cons_append, JSObj.get_cons, ih]
    by_cases h : k = k2
    · simp [h]
    · simp [h]

theorem JSObj.get_none_of_has_false (t : JSObj) (k : String) (h : JSObj.has t k = false) :
    JSObj.get t k = none := by
  induction t with
  | nil => simp [JSObj.get]
  | cons kv rest ih =>
    obtain ⟨k1, v1⟩ := kv
    simp only [JSObj.has, List.any_cons, Bool.or_eq_false_iff, beq_eq_false_iff_ne] at h
    have h2 : JSObj.has rest k = false := h.2
    simp [JSObj.get_cons, ih h2, h.1]

theorem JSObj.has_cons (k1 : String) (v : JSVal) (rest : JSObj) (k : String) :
    JSObj.has ((k1, v) :: rest) k = (k1 == k || JSObj.has rest k) := rfl

theorem JSObj.get_map_replace (t : JSObj) (k : String) (v : JSVal) (k2 : String) :
    JSObj.get (t.map (fun kv => if kv.1 = k then (kv.1, v) else kv)) k2 =
      if k = k2 then (if JSObj.has t k then some v else none) else JSObj.get t k2 := by
  induction t with
  | nil => simp [JSObj.get, JSObj.has]
  | cons kv rest ih =>
    obtain ⟨k1, v1⟩ := kv
    by_cases h1 : k1 = k
    · subst h1
      simp only [List.map_cons, if_true, JSObj.get_cons, ih]
      by_cases h : k1 = k2
      · subst h
        by_cases hr : JSObj.has rest k1 = true
        · simp [hr, JSObj.has_cons]
        · simp [hr, JSObj.has_cons]
      · simp [h]
    · simp only [List.map_cons, if_neg h1, JSObj.get_cons, ih]
      by_cases h : k = k2
      · subst h
        by_cases hr : JSObj.has rest k = true
        · simp [hr, JSObj.has_cons]
        · simp [hr, JSObj.has_cons, h1]
      · simp [h]

theorem JSObj.get_set (t : JSObj) (k : String) (v : JSVal) (k2 : String) :
    JSObj.get (JSObj.set t k v) k2 = if k = k2 then some v else JSObj.get t k2 := by
  unfold JSObj.set
  by_cases h : JSObj.has t k = true
  · rw [if_pos h, JSObj.get_map_replace, if_pos h]
  · rw [if_neg h, JSObj.get_append_single]

theorem JSObj.get_foldl_set (o t : JSObj) (k : String) :
    JSObj.get (o.foldl (fun t kv => JSObj.set t kv.1 kv.2) t) k =
      match JSObj.get o k with
      | some v => some v
      | none => JSObj.get t k := by
  induction o generalizing t with
  | nil => simp [JSObj.get]
  | cons kv rest ih =>
    obtain ⟨k1, v1⟩ := kv
    simp only [List.foldl_cons, ih, JSObj.get_cons, JSObj.get_set]
    cases JSObj.get rest k with
    | some w => rfl
    | none =>
      by_cases h : k1 = k
      · simp [h]
      · simp [h]

theorem get_spread (a b : JSObj) (k : String) :
    JSObj.get (spread a b) k =
      match JSObj.get b k with
      | some v => some v
      | none => JSObj.get a k := by
  unfold spread
  rw [JSObj.get_foldl_set, JSObj.get_foldl_set]
  cases JSObj.get b k with
  | some w => rfl
  | none =>
    cases JSObj.get a k with
    | some w => rfl
    | none => rfl

/-- What a normal return of `add` tells: both arguments are strings that are not
blank, the source was not found among the stored sources, both `ensureDirSync`
calls returned, and one mapping was pushed. -/
theorem add_ok_inversion (cwd : String) (self : FWC) (fs : FileSystem)
    (source destination : JSVal) (options : Option JSObj)
    (h : (add cwd self fs source destination options).outcome = .ok ()) :
    ∃ s d fs1, source = .str s ∧ destination = .str d ∧ trim s ≠ "" ∧ trim d ≠ ""
      ∧ _isFolderAdded self (.str s) = false
      ∧ ensureDirSync cwd fs s = .ok fs1
      ∧ ensureDirSync cwd fs1 d = .ok (add cwd self fs source destination options).fs
      ∧ (add cwd self fs source destination options).self
          = { self with
              foldersPaths := self.foldersPaths ++
                [⟨Path.join cwd s, Path.join cwd d,
                  spread defaultFsOptions (options.getD [])⟩] } := by
  cases hs : _validateDir (defaultParam source (.str "")) with
  | error e => rw [add_source_invalid cwd self fs source destination options e hs] at h; cases h
  | ok u =>
    cases hd : _validateDir (defaultParam destination (.str "")) with
    | error e =>
      rw [add_destination_invalid cwd self fs source destination options e hd] at h; cases h
    | ok u2 =>
      obtain ⟨s, hs1⟩ := validateDir_ok_str _ hs
      obtain ⟨d, hd1⟩ := validateDir_ok_str _ hd
      have hsrc : source = .str s := by
        cases source <;> simp_all [defaultParam, _validateDir, trim_empty]
      have hdst : destination = .str d := by
        cases destination <;> simp_all [defaultParam, _validateDir, trim_empty]
      subst hsrc hdst
      have hs2 : trim s ≠ "" := by
        intro hc; simp [defaultParam, _validateDir, hc] at hs
      have hd2 : trim d ≠ "" := by
        intro hc; simp [defaultParam, _validateDir, hc] at hd
      rw [add_valid cwd self fs s d options hs2 hd2] at h ⊢
      split at h
      · cases h
      · rename_i hna
        rw [if_neg hna]
        cases h1 : ensureDirSync cwd fs s with
        | error e => simp only [h1] at h; cases h
        | ok fs1 =>
          simp only [h1] at h ⊢
          cases h2 : ensureDirSync cwd fs1 d with
          | error e => simp only [h2] at h; cases h
          | ok fs2 =>
            simp only [h2]
            exact ⟨s, d, fs1, rfl, rfl, hs2, hd2, by simpa using hna, h1, h2, rfl⟩

/-- A call of `add` that throws leaves the instance as it was. -/
theorem add_error_self (cwd : String) (self : FWC) (fs : FileSystem)
    (source destination : JSVal) (options : Option JSObj) (e : JSError)
    (h : (add cwd self fs source destination options).outcome = .error e) :
    (add cwd self fs source destination options).self = self := by
  cases hs : _validateDir (defaultParam source (.str "")) with
  | error e1 => rw [add_source_invalid cwd self fs source destination options e1 hs]
  | ok u =>
    cases hd : _validateDir (defaultParam destination (.str "")) with
    | error e1 => rw [add_destination_invalid cwd self fs source destination options e1 hd]
    | ok u2 =>
      obtain ⟨s, hs1⟩ := validateDir_ok_str _ hs
      obtain ⟨d, hd1⟩ := validateDir_ok_str _ hd
      have hsrc : source = .str s := by
        cases source <;> simp_all [defaultParam, _validateDir, trim_empty]
      have hdst : destination = .str d := by
        cases destination <;> simp_all [defaultParam, _validateDir, trim_empty]
      subst hsrc hdst
      have hs2 : trim s ≠ "" := by
        intro hc; simp [defaultParam, _validateDir, hc] at hs
      have hd2 : trim d ≠ "" := by
        intro hc; simp [defaultParam, _validateDir, hc] at hd
      rw [add_valid cwd self fs s d options hs2 hd2] at h ⊢
      split
      · rfl
      · rename_i hna
        rw [if_neg hna] at h
        cases h1 : ensureDirSync cwd fs s with
        | error e1 => rfl
        | ok fs1 =>
          simp only [h1] at h ⊢
          cases h2 : ensureDirSync cwd fs1 d with
          | error e1 => rfl
          | ok fs2 => simp only [h2] at h; cases h

/-- C5: an `add` that returns normally was given two strings; the new registry is
the old one with one mapping appended, whose `source` and `destination` are the
arguments joined to the working directory and whose options are the defaults
`overwrite: true`, `errorOnExist: false`, `filter: () => true` overridden key by
key: a key present in `options` has the supplied value, a key absent from
`options` has what the defaults have. -/
theorem add_success_appends_mapping (cwd : String) (self : FWC) (fs : FileSystem)
    (source destination : JSVal) (options : Option JSObj)
    (h : (add cwd self fs source destination options).outcome = .ok ()) :
    ∃ s d, source = .str s ∧ destination = .str d
      ∧ (add cwd self fs source destination options).self.foldersPaths
          = self.foldersPaths ++
            [⟨Path.join cwd s, Path.join cwd d, spread defaultFsOptions (options.getD [])⟩]
      ∧ (∀ k v, JSObj.get (options.getD []) k = some v →
          JSObj.get (spread defaultFsOptions (options.getD [])) k = some v)
      ∧ (∀ k, JSObj.get (options.getD []) k = none →
          JSObj.get (spread defaultFsOptions (options.getD [])) k = JSObj.get defaultFsOptions k)
      ∧ JSObj.get defaultFsOptions "overwrite" = some (.bool true)
      ∧ JSObj.get defaultFsOptions "errorOnExist" = some (.bool false)
      ∧ JSObj.get defaultFsOptions "filter" = some (.fn (fun _ => true)) := by
  obtain ⟨s, d, fs1, hs, hd, _, _, _, _, _, hself⟩ :=
    add_ok_inversion cwd self fs source destination options h
  refine ⟨s, d, hs, hd, ?_, ?_, ?_, rfl, rfl, rfl⟩
  · rw [hself]
  · intro k v hk
    rw [get_spread, hk]
  · intro k hk
    rw [get_spread, hk]

/-- Witness for C5: the first mapping of `src/index.js`, with `overwrite` set to
`false`. -/
theorem add_success_appends_mapping_witness :
    (add "/home/u" FWC.new emptyFileSystem (.str "src/imgs") (.str "dist/imgs")
        (some [("overwrite", .bool false)])).outcome = .ok ()
    ∧ ∃ s d, JSVal.str "src/imgs" = .str s ∧ JSVal.str "dist/imgs" = .str d
      ∧ (add "/home/u" FWC.new emptyFileSystem (.str "src/imgs") (.str "dist/imgs")
            (some [("overwrite", .bool false)])).self.foldersPaths
          = FWC.new.foldersPaths ++
            [⟨Path.join "/home/u" s, Path.join "/home/u" d,
              spread defaultFsOptions ((some [("overwrite", JSVal.bool false)]).getD [])⟩] :=
  ⟨by decide,
    match add_success_appends_mapping "/home/u" FWC.new emptyFileSystem (.str "src/imgs")
      (.str "dist/imgs") (some [("overwrite", .bool false)]) (by decide) with
    | ⟨s, d, h1, h2, h3, _⟩ => ⟨s, d, h1, h2, h3⟩⟩

/-! ## Bulk operators, `stop`, and evaluations -/

theorem closedWatchers_stopEach (ws : List WatchEntry) :
    closedWatchers (stopEach ws) = activeHandles ws := by
  induction ws with
  | nil => rfl
  | cons w rest ih =>
    cases hw : w.watcher with
    | none => simp only [stopEach, activeHandles, hw, ih]
    | some handle => simp only [stopEach, activeHandles, hw, closedWatchers, ih]

/-- C10: `stop` closes the watcher of every watch entry once and leaves no watch
entry; a second `stop` right after closes nothing (its trace is empty) and again
leaves no watch entry; the registered mappings are the same throughout; and with
no watch entries `stop` does nothing and leaves both lists as they were. -/
theorem stop_idempotent (self : FWC) :
    closedWatchers (stop self).2 = activeHandles self.watchers
      ∧ (stop self).1.watchers = []
      ∧ (stop self).1.foldersPaths = self.foldersPaths
      ∧ (stop (stop self).1).2 = []
      ∧ (stop (stop self).1).1.watchers = []
      ∧ (stop (stop self).1).1.foldersPaths = self.foldersPaths
      ∧ (self.watchers = [] →
          (stop self).2 = [] ∧ (stop self).1.watchers = self.watchers
            ∧ (stop self).1.foldersPaths = self.foldersPaths) := by
  refine ⟨closedWatchers_stopEach self.watchers, rfl, rfl, rfl, rfl, rfl, ?_⟩
  intro h
  refine ⟨?_, h.symm, rfl⟩
  simp only [stop, h, stopEach]

/-- Witness for C10: one active watcher with handle 7. -/
theorem stop_idempotent_witness :
    closedWatchers (stop ⟨[], [⟨"/a", "/b", some 7⟩], none⟩).2 = [7]
      ∧ (stop (stop ⟨[], [⟨"/a", "/b", some 7⟩], none⟩).1).2 = [] :=
  ⟨(stop_idempotent ⟨[], [⟨"/a", "/b", some 7⟩], none⟩).1,
    (stop_idempotent ⟨[], [⟨"/a", "/b", some 7⟩], none⟩).2.2.2.1⟩

/-- C2 (evaluation of the code at the failing input): in working directory
`/home/u`, `add('src', 'd1')` succeeds, and the second call `add('src', 'd2')`
with the identical raw source succeeds too, leaving two mappings: the raw
string `src` is compared with the stored string `/home/u/src`. -/
theorem add_same_raw_source_twice_accepted :
    (add "/home/u" FWC.new emptyFileSystem (.str "src") (.str "d1") none).outcome = .ok ()
    ∧ (add "/home/u" (add "/home/u" FWC.new emptyFileSystem (.str "src") (.str "d1") none).self
        (add "/home/u" FWC.new emptyFileSystem (.str "src") (.str "d1") none).fs
        (.str "src") (.str "d2") none).outcome = .ok ()
    ∧ (add "/home/u" (add "/home/u" FWC.new emptyFileSystem (.str "src") (.str "d1") none).self
        (add "/home/u" FWC.new emptyFileSystem (.str "src") (.str "d1") none).fs
        (.str "src") (.str "d2") none).self.foldersPaths.length = 2 := by
  refine ⟨rfl, rfl, rfl⟩

/-- C4 (evaluation of the code at the failing input): two `add` calls from the
empty registry reach a registry whose two mappings have the same stored
source. -/
theorem reachable_registry_shares_source :
    (runAdds "/home/u" FWC.new emptyFileSystem
        [⟨.str "src", .str "d1", none⟩, ⟨.str "src", .str "d2", none⟩]).1.foldersPaths.map
      (fun m => m.source) = ["/home/u/src", "/home/u/src"] := by
  decide

/-- C6 (evaluation of the code at the failing input): in working directory
`/home/u`, `add('/tmp/a', '/tmp/b')` succeeds and creates `/tmp/a` and `/tmp/b`, but
stores `/home/u/tmp/a` and `/home/u/tmp/b`, neither of which is a directory
afterwards. -/
theorem add_absolute_paths_not_created :
    (add "/home/u" FWC.new emptyFileSystem (.str "/tmp/a") (.str "/tmp/b") none).outcome = .ok ()
    ∧ (add "/home/u" FWC.new emptyFileSystem (.str "/tmp/a") (.str "/tmp/b") none).self.foldersPaths.map
        (fun m => (m.source, m.destination)) = [("/home/u/tmp/a", "/home/u/tmp/b")]
    ∧ (add "/home/u" FWC.new emptyFileSystem (.str "/tmp/a") (.str "/tmp/b") none).fs.dirs
        = ["/", "/tmp", "/tmp/a", "/tmp/b"]
    ∧ isDirectory "/home/u"
        (add "/home/u" FWC.new emptyFileSystem (.str "/tmp/a") (.str "/tmp/b") none).fs
        "/home/u/tmp/a" = false
    ∧ isDirectory "/home/u"
        (add "/home/u" FWC.new emptyFileSystem (.str "/tmp/a") (.str "/tmp/b") none).fs
        "/home/u/tmp/b" = false := by
  refine ⟨rfl, by decide, by decide, by decide, by decide⟩

/-- C7 (evaluation of the code at the failing input): when `fs.ensureDir` is
rejected, the handlers of `add` and `change` are rejected with that error and
nothing is written to the error console, while the handler of `addDir` is
fulfilled. -/
theorem copyFile_handlers_reject :
    (onEvent "/home/u" ensureDirDenied .add "/home/u/src/x/y.txt" "/home/u/src" "/home/u/dst").outcome
        = .error (.system "EACCES" "/home/u/dst/x")
    ∧ (onEvent "/home/u" ensureDirDenied .change "/home/u/src/x/y.txt" "/home/u/src"
        "/home/u/dst").outcome = .error (.system "EACCES" "/home/u/dst/x")
    ∧ ((onEvent "/home/u" ensureDirDenied .add "/home/u/src/x/y.txt" "/home/u/src"
        "/home/u/dst").trace.filter Effect.isConsoleError).length = 0
    ∧ (onEvent "/home/u" ensureDirDenied .addDir "/home/u/src/x" "/home/u/src"
        "/home/u/dst").outcome = .ok () := by
  refine ⟨by decide, by decide, by decide, rfl⟩

/-! ## Lemmas on the path model -/

namespace Path

theorem splitSlash_ne_nil (cs : List Char) : splitSlash cs ≠ [] := by
  cases cs with
  | nil => simp [splitSlash]
  | cons c cs =>
    unfold splitSlash
    split
    · simp
    · split <;> simp

theorem splitSlash_slash_cons (cs : List Char) : splitSlash ('/' :: cs) = [] :: splitSlash cs := by
  simp [splitSlash]

theorem splitSlash_cons_ne (c : Char) (cs : List Char) (hc : c ≠ '/') :
    splitSlash (c :: cs) =
      match splitSlash cs with
      | [] => [[c]]
      | seg :: rest => (c :: seg) :: rest := by
  rw [splitSlash, if_neg hc]

theorem splitSlash_append (a b : List Char) :
    splitSlash (a ++ '/' :: b) = splitSlash a ++ splitSlash b := by
  induction a with
  | nil => simp [splitSlash]
  | cons c a ih =>
    by_cases hc : c = '/'
    · simp [splitSlash, hc, ih]
    · rw [List.cons_append, splitSlash_cons_ne _ _ hc, splitSlash_cons_ne _ _ hc, ih]
      cases h : splitSlash a with
      | nil => exact absurd h (splitSlash_ne_nil a)
      | cons seg rest => simp

theorem splitSlash_append_slash (a : List Char) :
    splitSlash (a ++ ['/']) = splitSlash a ++ [[]] := by
  rw [splitSlash_append]; rfl

theorem splitSlash_of_not_mem (s : List Char) (h : '/' ∉ s) : splitSlash s = [s] := by
  induction s with
  | nil => rfl
  | cons c s ih =>
    have hc : c ≠ '/' := fun e => h (by simp [e])
    have hs : '/' ∉ s := fun e => h (by simp [e])
    simp [splitSlash, hc, ih hs]

theorem splitSlash_joinSlash (X : List (List Char)) (hne : X ≠ [])
    (h : ∀ s ∈ X, '/' ∉ s) : splitSlash (joinSlash X) = X := by
  induction X with
  | nil => exact absurd rfl hne
  | cons s rest ih =>
    cases rest with
    | nil => simpa [joinSlash] using splitSlash_of_not_mem s (h s (by simp))
    | cons t rest =>
      have h1 := ih (by simp) (fun x hx => h x (by simp [hx]))
      rw [joinSlash, splitSlash_append, h1, splitSlash_of_not_mem s (h s (by simp))]
      rfl

theorem not_mem_of_mem_splitSlash (cs : List Char) :
    ∀ seg ∈ splitSlash cs, '/' ∉ seg := by
  induction cs with
  | nil => simp [splitSlash]
  | cons c cs ih =>
    by_cases hc : c = '/'
    · intro seg hseg
      simp only [splitSlash, hc, if_true, List.mem_cons] at hseg
      rcases hseg with h | h
      · simp [h]
      · exact ih seg h
    · intro seg hseg
      simp only [splitSlash, if_neg hc] at hseg
      cases h : splitSlash cs with
      | nil => exact absurd h (splitSlash_ne_nil cs)
      | cons s rest =>
        rw [h] at hseg ih
        simp only [List.mem_cons] at hseg
        rcases hseg with e | e
        · subst e
          have := ih s (by simp)
          simp only [List.mem_cons, not_or]
          exact ⟨fun e => hc e.symm, this⟩
        · exact ih seg (by simp [e])

theorem joinSlash_eq_nil (X : List (List Char)) (h : ∀ s ∈ X, s ≠ []) :
    joinSlash X = [] ↔ X = [] := by
  cases X with
  | nil => simp [joinSlash]
  | cons s rest =>
    cases rest with
    | nil => simpa [joinSlash] using h s (by simp)
    | cons t rest => simp [joinSlash]

theorem getLast_joinSlash (X : List (List Char)) (hne : X ≠ [])
    (h : ∀ s ∈ X, s ≠ [] ∧ '/' ∉ s) : (joinSlash X).getLast? ≠ some '/' := by
  induction X with
  | nil => exact absurd rfl hne
  | cons s rest ih =>
    cases rest with
    | nil =>
      simp only [joinSlash]
      intro hc
      exact (h s (by simp)).2 (List.mem_of_getLast?_eq_some hc)
    | cons t rest =>
      have h1 := ih (by simp) (fun x hx => h x (by simp [hx]))
      have hne2 : joinSlash (t :: rest) ≠ [] := by
        intro e
        have := (joinSlash_eq_nil (t :: rest) (fun x hx => (h x (by simp [hx])).1)).1 e
        cases this
      rw [joinSlash]
      rw [show s ++ '/' :: joinSlash (t :: rest) = (s ++ ['/']) ++ joinSlash (t :: rest) by simp]
      rw [List.getLast?_append_of_ne_nil _ hne2]
      exact h1


theorem normalizeStep_nil (a : Bool) (res : List (List Char)) : normalizeStep a res [] = res := by
  simp [normalizeStep]

theorem normalizeStep_plain (a : Bool) (res : List (List Char)) (seg : List Char)
    (h : plainSegment seg) : normalizeStep a res seg = res ++ [seg] := by
  obtain ⟨h1, _, h3, h4⟩ := h
  simp [normalizeStep, h1, h3, h4]

theorem foldl_normalizeStep_plain (a : Bool) (R : List (List Char))
    (h : ∀ s ∈ R, plainSegment s) (acc : List (List Char)) :
    R.foldl (normalizeStep a) acc = acc ++ R := by
  induction R generalizing acc with
  | nil => simp
  | cons s rest ih =>
    rw [List.foldl_cons, normalizeStep_plain a acc s (h s (by simp)),
      ih (fun x hx => h x (by simp [hx]))]
    simp

theorem normalizeStep_keeps_plain (res : List (List Char)) (seg : List Char)
    (hres : ∀ x ∈ res, plainSegment x) (hseg : '/' ∉ seg) :
    ∀ x ∈ normalizeStep false res seg, plainSegment x := by
  unfold normalizeStep
  split
  · exact hres
  · rename_i h1
    split
    · split
      · intro x hx
        exact hres x (List.mem_of_mem_dropLast hx)
      · simpa using hres
    · rename_i h2
      intro x hx
      rcases List.mem_append.1 hx with h | h
      · exact hres x h
      · simp only [List.mem_singleton] at h
        subst h
        simp only [not_or] at h1
        exact ⟨h1.1, hseg, h1.2, h2⟩

theorem foldl_normalizeStep_keeps_plain (segs : List (List Char)) (acc : List (List Char))
    (hacc : ∀ x ∈ acc, plainSegment x) (hsegs : ∀ s ∈ segs, '/' ∉ s) :
    ∀ x ∈ segs.foldl (normalizeStep false) acc, plainSegment x := by
  induction segs generalizing acc with
  | nil => simpa using hacc
  | cons s rest ih =>
    rw [List.foldl_cons]
    exact ih _ (normalizeStep_keeps_plain acc s hacc (hsegs s (by simp)))
      (fun x hx => hsegs x (by simp [hx]))

theorem normalizeSegs_plain (cs : List Char) : ∀ x ∈ normalizeSegs false cs, plainSegment x :=
  foldl_normalizeStep_keeps_plain _ [] (by simp) (not_mem_of_mem_splitSlash cs)

theorem normalizeSegs_append_slash (a : Bool) (cs : List Char) :
    normalizeSegs a (cs ++ ['/']) = normalizeSegs a cs := by
  simp [normalizeSegs, splitSlash_append_slash, List.foldl_append, normalizeStep_nil]

theorem normalizeSegs_append_plain (a : Bool) (cs : List Char) (R : List (List Char))
    (hne : R ≠ []) (h : ∀ s ∈ R, plainSegment s) :
    normalizeSegs a (cs ++ '/' :: joinSlash R) = normalizeSegs a cs ++ R := by
  unfold normalizeSegs
  rw [splitSlash_append, splitSlash_joinSlash R hne (fun s hs => (h s hs).2.1), List.foldl_append,
    foldl_normalizeStep_plain a R h]

theorem normalizeSegs_absForm (X : List (List Char)) (trailing : Bool)
    (h : ∀ s ∈ X, plainSegment s) : normalizeSegs false (absForm X trailing) = X := by
  have key : normalizeSegs false ('/' :: joinSlash X) = X := by
    cases X with
    | nil => simp [normalizeSegs, joinSlash, splitSlash, normalizeStep]
    | cons s rest =>
      unfold normalizeSegs
      rw [splitSlash_slash_cons, splitSlash_joinSlash _ (by simp) (fun s hs => (h s hs).2.1),
        List.foldl_cons, normalizeStep_nil, foldl_normalizeStep_plain false _ h]
      simp
  cases trailing with
  | false => simpa [absForm] using key
  | true =>
    have : absForm X true = ('/' :: joinSlash X) ++ ['/'] := by simp [absForm]
    rw [this, normalizeSegs_append_slash, key]

theorem plain_ne_nil {X : List (List Char)} (h : ∀ s ∈ X, plainSegment s) : ∀ s ∈ X, s ≠ [] :=
  fun s hs => (h s hs).1

theorem normalize_absolute (cs : List Char) (h : cs.head? = some '/') :
    normalize (String.mk cs) =
      if normalizeSegs false cs = [] then "/"
      else String.mk (absForm (normalizeSegs false cs) (cs.getLast? == some '/')) := by
  have hne : cs ≠ [] := by intro e; simp [e] at h
  have hp := normalizeSegs_plain cs
  unfold normalize
  simp only [hne, if_false, isAbsolute, h, beq_self_eq_true, Bool.not_true, if_true,
    normalizeString, joinSlash_eq_nil _ (plain_ne_nil hp)]
  split
  · rfl
  · simp [absForm]


theorem data_ne_nil_of_isAbsolute (p : String) (h : isAbsolute p = true) : p.data ≠ [] := by
  intro e
  simp [isAbsolute, e] at h

theorem head_of_isAbsolute (p : String) (h : isAbsolute p = true) : p.data.head? = some '/' := by
  simpa [isAbsolute] using h

theorem resolve_absolute (cwd p : String) (h : isAbsolute p = true) :
    resolve cwd p = String.mk (absForm (normalizeSegs false p.data) false) := by
  have hne := data_ne_nil_of_isAbsolute p h
  simp [resolve, h, hne, normalizeString, normalizeSegs_append_slash, absForm]

theorem resolvedSegs_absForm (X : List (List Char)) (h : ∀ s ∈ X, plainSegment s) :
    resolvedSegs (String.mk (absForm X false)) = X := by
  cases X with
  | nil => simp [resolvedSegs, absForm, joinSlash, splitSlash]
  | cons s rest =>
    simp only [resolvedSegs, absForm, List.drop_succ_cons, List.drop_zero, Bool.false_eq_true,
      if_false, List.append_nil]
    rw [splitSlash_joinSlash _ (by simp) (fun s hs => (h s hs).2.1)]
    rw [List.filter_eq_self]
    intro x hx
    simpa using (h x hx).1

theorem stripCommon_append (F R : List (List Char)) : stripCommon F (F ++ R) = ([], R) := by
  induction F with
  | nil => cases R <;> rfl
  | cons a rest ih => simp [stripCommon, ih]

theorem isAbsolute_absForm (X : List (List Char)) (t : Bool) :
    isAbsolute (String.mk (absForm X t)) = true := by
  simp [isAbsolute, absForm]

theorem join_absolute_plain (source : String) (R : List (List Char))
    (habs : isAbsolute source = true) (hne : R ≠ []) (h : ∀ s ∈ R, plainSegment s) :
    join source (String.mk (joinSlash R))
      = String.mk (absForm (normalizeSegs false source.data ++ R) false) := by
  have hs := data_ne_nil_of_isAbsolute source habs
  have hr : joinSlash R ≠ [] := fun e => hne ((joinSlash_eq_nil R (plain_ne_nil h)).1 e)
  have hlast : (joinSlash R).getLast? ≠ some '/' :=
    getLast_joinSlash R hne (fun s hs => ⟨(h s hs).1, (h s hs).2.1⟩)
  unfold join
  rw [if_neg hs, if_neg (by simpa using hr)]
  rw [normalize_absolute _ (by
    rw [List.head?_append_of_ne_nil _ hs]; exact head_of_isAbsolute source habs)]
  rw [normalizeSegs_append_plain false _ R hne h]
  have hne2 : normalizeSegs false source.data ++ R ≠ [] := by simp [hne]
  rw [if_neg hne2]
  have : (source.data ++ '/' :: joinSlash R).getLast? = (joinSlash R).getLast? := by
    rw [show source.data ++ '/' :: joinSlash R = (source.data ++ ['/']) ++ joinSlash R by simp]
    exact List.getLast?_append_of_ne_nil _ hr
  rw [this]
  have : ((joinSlash R).getLast? == some '/') = false := by
    simpa using hlast
  rw [this]

theorem join_empty_right (source : String) (habs : isAbsolute source = true) :
    join source "" = normalize source := by
  have hs := data_ne_nil_of_isAbsolute source habs
  simp [join, hs]

theorem normalize_absolute_str (p : String) (h : isAbsolute p = true) :
    normalize p =
      if normalizeSegs false p.data = [] then "/"
      else String.mk (absForm (normalizeSegs false p.data) (p.data.getLast? == some '/')) :=
  normalize_absolute p.data (head_of_isAbsolute p h)

/-- What `normalize` returns for an absolute path is again absolute, is left
alone by `normalize`, and resolves to the same place. -/
theorem normalize_absolute_facts (p : String) (h : isAbsolute p = true) :
    isAbsolute (normalize p) = true
      ∧ normalizeSegs false (normalize p).data = normalizeSegs false p.data
      ∧ normalize (normalize p) = normalize p := by
  have hp := normalizeSegs_plain p.data
  rw [normalize_absolute_str p h]
  split
  · rename_i h0
    refine ⟨by decide, ?_, by decide⟩
    rw [h0]; decide
  · rename_i h0
    have hn : normalizeSegs false (absForm (normalizeSegs false p.data)
        (p.data.getLast? == some '/')) = normalizeSegs false p.data :=
      normalizeSegs_absForm _ _ hp
    refine ⟨isAbsolute_absForm _ _, hn, ?_⟩
    rw [normalize_absolute _ (by simp [absForm])]
    simp only [hn, if_neg h0]
    congr 2
    cases hb : (p.data.getLast? == some '/') with
    | true =>
      simp only [absForm, if_true]
      rw [show '/' :: joinSlash (normalizeSegs false p.data) ++ ['/']
          = ('/' :: joinSlash (normalizeSegs false p.data)) ++ ['/'] by rfl,
        List.getLast?_concat]
      rfl
    | false =>
      have hlast := getLast_joinSlash _ h0 (fun s hs => ⟨(hp s hs).1, (hp s hs).2.1⟩)
      have hj : joinSlash (normalizeSegs false p.data) ≠ [] :=
        fun e => h0 ((joinSlash_eq_nil _ (plain_ne_nil hp)).1 e)
      have : (absForm (normalizeSegs false p.data) false).getLast?
          = (joinSlash (normalizeSegs false p.data)).getLast? := by
        simp only [absForm, Bool.false_eq_true, if_false, List.append_nil]
        rw [show '/' :: joinSlash (normalizeSegs false p.data)
            = ['/'] ++ joinSlash (normalizeSegs false p.data) by rfl]
        exact List.getLast?_append_of_ne_nil _ hj
      rw [this]
      simpa using hlast


theorem plain_append {F R : List (List Char)} (hF : ∀ s ∈ F, plainSegment s)
    (hR : ∀ s ∈ R, plainSegment s) : ∀ s ∈ F ++ R, plainSegment s := by
  intro s hs
  rcases List.mem_append.1 hs with h | h
  · exact hF s h
  · exact hR s h

theorem relative_join_plain (cwd source : String) (R : List (List Char))
    (habs : isAbsolute source = true) (h : ∀ s ∈ R, plainSegment s) :
    relative cwd source (join source (String.mk (joinSlash R))) = String.mk (joinSlash R) := by
  have hF := normalizeSegs_plain source.data
  by_cases hne : R = []
  · subst hne
    have hj : join source (String.mk (joinSlash [])) = normalize source :=
      join_empty_right source habs
    rw [hj]
    obtain ⟨ha, hseg, _⟩ := normalize_absolute_facts source habs
    unfold relative
    split
    · rfl
    · rw [resolve_absolute cwd source habs, resolve_absolute cwd _ ha, hseg]
      simp only [if_true]
      rfl
  · rw [join_absolute_plain source R habs hne h]
    have hFR := plain_append hF h
    have hseg : normalizeSegs false (absForm (normalizeSegs false source.data ++ R) false)
        = normalizeSegs false source.data ++ R := normalizeSegs_absForm _ false hFR
    have hneq : normalizeSegs false source.data ≠ normalizeSegs false source.data ++ R := by
      intro e
      exact hne (List.self_eq_append_right.1 e)
    unfold relative
    rw [if_neg (by
      intro e
      apply hneq
      have := congrArg (fun x => normalizeSegs false x.data) e
      simp only [hseg] at this
      exact this)]
    rw [resolve_absolute cwd source habs, resolve_absolute cwd _ (isAbsolute_absForm _ _)]
    simp only [hseg]
    rw [if_neg (by
      intro e
      apply hneq
      have := congrArg resolvedSegs e
      rwa [resolvedSegs_absForm _ hF, resolvedSegs_absForm _ hFR] at this)]
    simp only [resolvedSegs_absForm _ hF, resolvedSegs_absForm _ hFR, stripCommon_append,
      List.length_nil, List.replicate_zero, List.nil_append]

theorem relative_self (cwd p : String) : relative cwd p p = "" := by
  simp [relative]

theorem isAbsolute_join (cwd d : String) (h : isAbsolute cwd = true) :
    isAbsolute (join cwd d) = true ∧ normalize (join cwd d) = join cwd d := by
  have hs := data_ne_nil_of_isAbsolute cwd h
  unfold join
  rw [if_neg hs]
  split
  · exact ⟨(normalize_absolute_facts cwd h).1, (normalize_absolute_facts cwd h).2.2⟩
  · have ha : isAbsolute (String.mk (cwd.data ++ '/' :: d.data)) = true := by
      have := head_of_isAbsolute cwd h
      simp only [isAbsolute, List.head?_append_of_ne_nil _ hs, this]
      rfl
    exact ⟨(normalize_absolute_facts _ ha).1, (normalize_absolute_facts _ ha).2.2⟩

theorem join_stored_empty (cwd d : String) (h : isAbsolute cwd = true) :
    join (join cwd d) "" = join cwd d := by
  obtain ⟨ha, hn⟩ := isAbsolute_join cwd d h
  rw [join_empty_right _ ha, hn]

theorem join_normalized_empty (destination : String)
    (hn : normalize destination = destination) : join destination "" = destination := by
  by_cases he : destination.data = []
  · exfalso
    have h1 : normalize destination = "." := by simp [normalize, he]
    rw [h1] at hn
    rw [← hn] at he
    exact absurd he (by decide)
  · unfold join
    rw [if_neg he]
    simpa using hn

end Path

/-! ## Where `add` and the handlers do what the specification asks -/

theorem data_ne_nil_of_trim (s : String) (h : trim s ≠ "") : s.data ≠ [] := by
  intro e
  apply h
  simp [trim, e]

theorem Path.resolve_of_absolute_cwd (cwd p : String) (h : Path.isAbsolute cwd = true) :
    ∃ X, (∀ s ∈ X, plainSegment s) ∧ Path.resolve cwd p = String.mk (Path.absForm X false) := by
  refine ⟨Path.normalizeSegs false
    (if Path.isAbsolute p = true then (if p.data = [] then [] else p.data ++ ['/'])
      else if cwd.data = [] then (if p.data = [] then [] else p.data ++ ['/'])
      else cwd.data ++ '/' :: (if p.data = [] then [] else p.data ++ ['/'])),
    Path.normalizeSegs_plain _, ?_⟩
  simp [Path.resolve, h, Path.normalizeString, Path.absForm]

theorem Path.resolve_relative (cwd s : String) (hc : Path.isAbsolute cwd = true)
    (hs : Path.isAbsolute s = false) (hne : s.data ≠ []) :
    Path.resolve cwd s
      = String.mk (Path.absForm (Path.normalizeSegs false (cwd.data ++ '/' :: s.data)) false) := by
  have hcn := Path.data_ne_nil_of_isAbsolute cwd hc
  have e : cwd.data ++ '/' :: (s.data ++ ['/']) = (cwd.data ++ '/' :: s.data) ++ ['/'] := by simp
  simp only [Path.resolve, hs, hc, hne, hcn, if_false, Bool.false_or, Bool.not_true,
    Bool.false_eq_true, if_true, Path.normalizeString, e, Path.normalizeSegs_append_slash,
    Path.absForm, List.append_nil]

theorem Path.resolve_join_relative (cwd s : String) (hc : Path.isAbsolute cwd = true)
    (hs : Path.isAbsolute s = false) (hne : s.data ≠ []) :
    Path.resolve cwd (Path.join cwd s) = Path.resolve cwd s := by
  have hcn := Path.data_ne_nil_of_isAbsolute cwd hc
  have ha : Path.isAbsolute (String.mk (cwd.data ++ '/' :: s.data)) = true := by
    have := Path.head_of_isAbsolute cwd hc
    simp only [Path.isAbsolute, List.head?_append_of_ne_nil _ hcn, this]
    rfl
  obtain ⟨hna, hseg, _⟩ := Path.normalize_absolute_facts _ ha
  rw [Path.resolve_relative cwd s hc hs hne]
  unfold Path.join
  rw [if_neg hcn, if_neg hne, Path.resolve_absolute cwd _ hna, hseg]

theorem mem_ancestorPaths (X : List (List Char)) :
    String.mk (Path.absForm X false) ∈ ancestorPaths X := by
  unfold ancestorPaths
  refine List.mem_map.2 ⟨X.length, by simp, ?_⟩
  simp [Path.absForm]

theorem ensureDirSync_creates (cwd : String) (fs fs1 : FileSystem) (dir : String)
    (hc : Path.isAbsolute cwd = true) (h : ensureDirSync cwd fs dir = .ok fs1) :
    Path.resolve cwd dir ∈ fs1.dirs ∧ ∀ p ∈ fs.dirs, p ∈ fs1.dirs := by
  obtain ⟨X, hX, hr⟩ := Path.resolve_of_absolute_cwd cwd dir hc
  unfold ensureDirSync at h
  simp only at h
  split at h
  · cases h
  · split at h
    · cases h
    · injection h with h
      subst h
      refine ⟨?_, fun p hp => List.mem_append.2 (Or.inl hp)⟩
      by_cases hin : Path.resolve cwd dir ∈ fs.dirs
      · exact List.mem_append.2 (Or.inl hin)
      · refine List.mem_append.2 (Or.inr (List.mem_filter.2 ⟨?_, by simpa using hin⟩))
        rw [hr, Path.resolvedSegs_absForm X hX]
        exact mem_ancestorPaths X

/-- The positive side of C6: for a source and a destination that are not absolute,
and an absolute working directory, a successful `add` leaves both stored paths
as existing directories. -/
theorem add_relative_dirs_exist (cwd : String) (self : FWC) (fs : FileSystem) (s d : String)
    (options : Option JSObj) (hc : Path.isAbsolute cwd = true)
    (hs : Path.isAbsolute s = false) (hd : Path.isAbsolute d = false)
    (h : (add cwd self fs (.str s) (.str d) options).outcome = .ok ()) :
    isDirectory cwd (add cwd self fs (.str s) (.str d) options).fs (Path.join cwd s) = true
    ∧ isDirectory cwd (add cwd self fs (.str s) (.str d) options).fs (Path.join cwd d) = true := by
  obtain ⟨s1, d1, fs1, e1, e2, hs2, hd2, _, h1, h2, _⟩ :=
    add_ok_inversion cwd self fs (.str s) (.str d) options h
  injection e1 with e1
  injection e2 with e2
  subst e1 e2
  obtain ⟨m1, _⟩ := ensureDirSync_creates cwd fs fs1 s hc h1
  obtain ⟨m2, k2⟩ := ensureDirSync_creates cwd fs1 _ d hc h2
  unfold isDirectory
  rw [Path.resolve_join_relative cwd s hc hs (data_ne_nil_of_trim s hs2),
    Path.resolve_join_relative cwd d hc hd (data_ne_nil_of_trim d hd2)]
  exact ⟨by simpa using k2 _ m1, by simpa using m2⟩

/-- What `add` stores, for an absolute working directory: an absolute source and
a destination in normal form. -/
theorem add_stores_absolute (cwd : String) (self : FWC) (fs : FileSystem)
    (source destination : JSVal) (options : Option JSObj) (hc : Path.isAbsolute cwd = true)
    (hinv : ∀ m ∈ self.foldersPaths,
      Path.isAbsolute m.source = true ∧ Path.normalize m.destination = m.destination) :
    ∀ m ∈ (add cwd self fs source destination options).self.foldersPaths,
      Path.isAbsolute m.source = true ∧ Path.normalize m.destination = m.destination := by
  cases ho : (add cwd self fs source destination options).outcome with
  | error e => rw [add_error_self cwd self fs source destination options e ho]; exact hinv
  | ok u =>
    obtain ⟨s, d, fs1, _, _, _, _, _, _, _, hself⟩ :=
      add_ok_inversion cwd self fs source destination options ho
    rw [hself]
    intro m hm
    rcases List.mem_append.1 hm with h | h
    · exact hinv m h
    · simp only [List.mem_singleton] at h
      subst h
      exact ⟨(Path.isAbsolute_join cwd s hc).1, (Path.isAbsolute_join cwd d hc).2⟩

/-- Every mapping of a registry reached from the empty one by `add` calls, in an
absolute working directory, has an absolute source and a destination in normal
form: the hypotheses of C9 hold for it. -/
theorem runAdds_stores_absolute (cwd : String) (hc : Path.isAbsolute cwd = true)
    (calls : List AddCall) (self : FWC) (fs : FileSystem)
    (hinv : ∀ m ∈ self.foldersPaths,
      Path.isAbsolute m.source = true ∧ Path.normalize m.destination = m.destination) :
    ∀ m ∈ (runAdds cwd self fs calls).1.foldersPaths,
      Path.isAbsolute m.source = true ∧ Path.normalize m.destination = m.destination := by
  induction calls generalizing self fs with
  | nil => exact hinv
  | cons c rest ih =>
    rw [runAdds]
    exact ih _ _ (add_stores_absolute cwd self fs c.source c.destination c.options hc hinv)

/-- How each handler settles: the removal handlers and the directory handler are
always fulfilled; the two file handlers settle as `fs.ensureDir` of the target's
directory does. -/
theorem handlers_settle (cwd : String) (fsOut : FsOutcomes) (p source destination : String) :
    (onEvent cwd fsOut .unlink p source destination).outcome = .ok ()
    ∧ (onEvent cwd fsOut .unlinkDir p source destination).outcome = .ok ()
    ∧ (onEvent cwd fsOut .addDir p source destination).outcome = .ok ()
    ∧ (onEvent cwd fsOut .add p source destination).outcome
        = settle (fsOut.ensureDir (Path.dirname (targetPath cwd p source destination)))
    ∧ (onEvent cwd fsOut .change p source destination).outcome
        = settle (fsOut.ensureDir (Path.dirname (targetPath cwd p source destination))) := by
  refine ⟨?_, ?_, ?_, ?_, ?_⟩
  · simp only [onEvent, _handleUnlink]
    cases fsOut.remove (Path.join destination (Path.relative cwd source p)) <;> rfl
  · simp only [onEvent, _handleUnlinkDir]
    cases fsOut.remove (Path.join destination (Path.relative cwd source p)) <;> rfl
  · simp only [onEvent, _handleAddDir]
    cases fsOut.ensureDir (Path.join destination (Path.relative cwd source p)) <;> rfl
  · simp only [onEvent, _handleAdd, _copyFile, targetPath]
    cases fsOut.ensureDir (Path.dirname (Path.join destination (Path.relative cwd source p))) with
    | some err => rfl
    | none =>
      cases fsOut.copy p (Path.join destination (Path.relative cwd source p)) <;> rfl
  · simp only [onEvent, _handleChange, _copyFile, targetPath]
    cases fsOut.ensureDir (Path.dirname (Path.join destination (Path.relative cwd source p))) with
    | some err => rfl
    | none =>
      cases fsOut.copy p (Path.join destination (Path.relative cwd source p)) <;> rfl

/-- C9: let `source` be absolute and let the event path be `source` joined with a
relative path `r` made of plain segments (no `.`, no `..`, no empty segment).
Then `path.relative(source, path)` is `r`, every handler computes the target
`path.join(destination, r)`, the file handlers ask for the directory
`dirname(target)` first and then for the copy of the event path to the target,
the removal handlers remove the target, the directory handler ensures the
target; and an event on `source` itself has the target `destination` when
`destination` is in normal form (as every stored destination is). -/
theorem event_target_under_destination (cwd source destination : String)
    (segs : List (List Char)) (fsOut : FsOutcomes)
    (habs : Path.isAbsolute source = true)
    (hsegs : ∀ seg ∈ segs, plainSegment seg) :
    Path.relative cwd source (Path.join source (String.mk (Path.joinSlash segs)))
        = String.mk (Path.joinSlash segs)
    ∧ targetPath cwd (Path.join source (String.mk (Path.joinSlash segs))) source destination
        = Path.join destination (String.mk (Path.joinSlash segs))
    ∧ fsRequests (onEvent cwd fsOut .add (Path.join source (String.mk (Path.joinSlash segs)))
          source destination).trace
        = .ensureDir (Path.dirname (Path.join destination (String.mk (Path.joinSlash segs))))
          :: (match fsOut.ensureDir
                (Path.dirname (Path.join destination (String.mk (Path.joinSlash segs)))) with
              | none =>
                [.copy (Path.join source (String.mk (Path.joinSlash segs)))
                  (Path.join destination (String.mk (Path.joinSlash segs)))
                  [("overwrite", .bool true)]]
              | some _ => [])
    ∧ fsRequests (onEvent cwd fsOut .change (Path.join source (String.mk (Path.joinSlash segs)))
          source destination).trace
        = .ensureDir (Path.dirname (Path.join destination (String.mk (Path.joinSlash segs))))
          :: (match fsOut.ensureDir
                (Path.dirname (Path.join destination (String.mk (Path.joinSlash segs)))) with
              | none =>
                [.copy (Path.join source (String.mk (Path.joinSlash segs)))
                  (Path.join destination (String.mk (Path.joinSlash segs)))
                  [("overwrite", .bool true)]]
              | some _ => [])
    ∧ fsRequests (onEvent cwd fsOut .unlink (Path.join source (String.mk (Path.joinSlash segs)))
          source destination).trace
        = [.remove (Path.join destination (String.mk (Path.joinSlash segs)))]
    ∧ fsRequests (onEvent cwd fsOut .unlinkDir
          (Path.join source (String.mk (Path.joinSlash segs))) source destination).trace
        = [.remove (Path.join destination (String.mk (Path.joinSlash segs)))]
    ∧ fsRequests (onEvent cwd fsOut .addDir (Path.join source (String.mk (Path.joinSlash segs)))
          source destination).trace
        = [.ensureDir (Path.join destination (String.mk (Path.joinSlash segs)))]
    ∧ (Path.normalize destination = destination →
        targetPath cwd source source destination = destination) := by
  have h1 := Path.relative_join_plain cwd source segs habs hsegs
  refine ⟨h1, ?_, ?_, ?_, ?_, ?_, ?_, ?_⟩
  · simp only [targetPath, h1]
  · simp only [onEvent, _handleAdd, _copyFile, h1]
    cases fsOut.ensureDir
        (Path.dirname (Path.join destination (String.mk (Path.joinSlash segs)))) with
    | some err => rfl
    | none =>
      cases fsOut.copy (Path.join source (String.mk (Path.joinSlash segs)))
          (Path.join destination (String.mk (Path.joinSlash segs))) with
      | some err => rfl
      | none => rfl
  · simp only [onEvent, _handleChange, _copyFile, h1]
    cases fsOut.ensureDir
        (Path.dirname (Path.join destination (String.mk (Path.joinSlash segs)))) with
    | some err => rfl
    | none =>
      cases fsOut.copy (Path.join source (String.mk (Path.joinSlash segs)))
          (Path.join destination (String.mk (Path.joinSlash segs))) with
      | some err => rfl
      | none => rfl
  · simp only [onEvent, _handleUnlink, h1]
    cases fsOut.remove (Path.join destination (String.mk (Path.joinSlash segs))) with
    | some err => rfl
    | none => rfl
  · simp only [onEvent, _handleUnlinkDir, h1]
    cases fsOut.remove (Path.join destination (String.mk (Path.joinSlash segs))) with
    | some err => rfl
    | none => rfl
  · simp only [onEvent, _handleAddDir, h1]
    cases fsOut.ensureDir (Path.join destination (String.mk (Path.joinSlash segs))) with
    | some err => rfl
    | none => rfl
  · intro hn
    rw [targetPath, Path.relative_self]
    exact Path.join_normalized_empty destination hn

/-- Witness for C9: the mapping `(/home/u/srcA, /home/u/dstA)` and the relative
path `x/y.txt`. -/
theorem event_target_under_destination_witness :
    (Path.isAbsolute "/home/u/srcA" = true
      ∧ ∀ seg ∈ [['x'], ['y', '.', 't', 'x', 't']], plainSegment seg)
    ∧ Path.relative "/home/u" "/home/u/srcA"
        (Path.join "/home/u/srcA" (String.mk (Path.joinSlash [['x'], ['y', '.', 't', 'x', 't']])))
      = String.mk (Path.joinSlash [['x'], ['y', '.', 't', 'x', 't']]) :=
  ⟨⟨by decide, by decide⟩,
    (event_target_under_destination "/home/u" "/home/u/srcA" "/home/u/dstA"
      [['x'], ['y', '.', 't', 'x', 't']] allFulfilled (by decide) (by decide)).1⟩

/-- The end-to-end example of C9 evaluated: the event for `srcA/x/y.txt` asks for
the directory `dstA/x` and then for the copy to `dstA/x/y.txt`. -/
theorem event_example_requests :
    fsRequests (onEvent "/home/u" allFulfilled .add "/home/u/srcA/x/y.txt" "/home/u/srcA"
        "/home/u/dstA").trace
      = [.ensureDir "/home/u/dstA/x",
          .copy "/home/u/srcA/x/y.txt" "/home/u/dstA/x/y.txt" [("overwrite", .bool true)]] := by
  rfl

end FwcNode
